import Mathlib

/-!
# Verification of the diffsol core against its specification

A shallow embedding of the core of the `diffsol` stiff-ODE solver library
(nonlinear-solver convergence test, operator statistics, matrix backends,
ODE problem/state glue), with theorems settling the specification claims.

Scalars are embedded as `ℚ` (exact arithmetic standing in for `f64`);
machine epsilon is the exact rational value of `f64::EPSILON`.
Vectors are `List ℚ`, matrices are row lists `List (List ℚ)`.
-/

namespace Diffsol

/-- The exact rational value of `f64::EPSILON` (`C::T::EPSILON` in the source),
namely 2⁻⁵². -/
def f64_epsilon : ℚ := 1 / 2 ^ 52

/-! ## Vector operations

Modelled from the spec: the `Vector` trait implementation is not among the
embedded sources; the spec (§3) describes elementwise abs, elementwise
multiply/divide in place, axpy `y ← α·x + β·y`, filtering into an index set
and scatter. Vectors are dense lists of scalars. -/

/-- Modelled from the spec: `axpy(alpha, x, beta)` computes `y ← α·x + β·y`
elementwise (spec §3, used by `SundialsMatrix::gemv`). -/
def vaxpy (alpha : ℚ) (x : List ℚ) (beta : ℚ) (y : List ℚ) : List ℚ :=
  List.zipWith (fun xi yi => alpha * xi + beta * yi) x y

/-- Modelled from the spec: `filter_indices(predicate)` returns the ascending
list of positions whose element satisfies the predicate (spec §3, §4.1). -/
def filter_indices (v : List ℚ) (pred : ℚ → Bool) : List ℕ :=
  (List.range v.length).filter (fun i => pred (v.getD i 0))

/-- Modelled from the spec: `filter(indices)` selects the elements of `v` at
the given positions (spec §4.5 step 5). -/
def filterVec (v : List ℚ) (indices : List ℕ) : List ℚ :=
  indices.map (fun i => v.getD i 0)

/-- Modelled from the spec: `scatter_from(values, indices)` writes `values[k]`
into `self[indices[k]]` for each `k` (spec §3, §4.1). -/
def scatter_from (y : List ℚ) (vals : List ℚ) (indices : List ℕ) : List ℚ :=
  (indices.zip vals).foldl (fun acc iv => acc.set iv.1 iv.2) y

/-! ## Convergence (`src/nonlinear_solver/mod.rs`) -/

/-- The status returned by `Convergence::check_new_iteration`
(`enum ConvergenceStatus` in the source). -/
inductive ConvergenceStatus where
  | Converged
  | Diverged
  | Continue
  | MaximumIterations
deriving DecidableEq, Repr

/-- The `Convergence` struct from `src/nonlinear_solver/mod.rs`: tolerances,
iteration budget and counter, the optional scale vector and the previous
scaled norm. -/
structure Convergence where
  rtol : ℚ
  atol : List ℚ
  tol : ℚ
  max_iter : ℕ
  iter : ℕ
  scale : Option (List ℚ)
  old_norm : Option ℚ
deriving DecidableEq, Repr

/-- `Convergence::new(problem, max_iter)`.  The source computes
`tol = 0.5 * rtol.pow(0.5)` and clamps it between
`minimum_tol = 10 * EPSILON / rtol` and `maximum_tol = 0.03`.
The square root is computed by the external scalar library (`num_traits::Pow`),
so its value is taken as the argument `sqrt_rtol`. -/
def Convergence.new (rtol : ℚ) (atol : List ℚ) (sqrt_rtol : ℚ) (max_iter : ℕ) :
    Convergence :=
  let minimum_tol := 10 * f64_epsilon / rtol
  let maximum_tol : ℚ := 3 / 100
  let tol0 := 1 / 2 * sqrt_rtol
  let tol1 := if tol0 > maximum_tol then maximum_tol else tol0
  let tol2 := if tol1 < minimum_tol then minimum_tol else tol1
  { rtol := rtol, atol := atol, tol := tol2, max_iter := max_iter,
    iter := 0, scale := none, old_norm := none }

/-- `Convergence::reset(y)`: recompute `scale = |y| * rtol + atol`, set
`iter = 0` and clear `old_norm` to `None` (source lines 90-96). -/
def Convergence.reset (c : Convergence) (y : List ℚ) : Convergence :=
  let scale := List.zipWith (fun a b => a + b) (y.map fun v => |v| * c.rtol) c.atol
  { c with scale := some scale, iter := 0, old_norm := none }

/-- `Convergence::check_new_iteration(dy)`.  Returns `none` for the panic when
`scale` is `None`, otherwise the status together with the updated struct and
the mutated `dy` (the source divides `dy` by `scale` in place).  The vector
norm is the external `Vector::norm`, passed as `vnorm`.

The source computes `rate / (1 - rate) * norm` and
`rate.pow(max_iter - iter) / (1 - rate) * norm` in IEEE-754 arithmetic.  On
the reachable states of this branch `rate ≤ 1` and `norm > 0`, so when
`rate = 1` both quotients are `+∞`: the `< tol` comparison is false and the
`> tol` comparison is true (for the finite `tol`).  The embedding encodes
these two outcomes with explicit zero-denominator guards; away from
`rate = 1` the conditions are the source's, over exact arithmetic. -/
def Convergence.check_new_iteration (vnorm : List ℚ → ℚ) (c : Convergence)
    (dy : List ℚ) : Option (ConvergenceStatus × Convergence × List ℚ) :=
  match c.scale with
  | none => none
  | some s =>
    let dy := List.zipWith (· / ·) dy s
    let norm := vnorm dy
    if norm ≤ f64_epsilon then
      some (ConvergenceStatus.Converged, c, dy)
    else
      let step : Option (ConvergenceStatus × Convergence × List ℚ) :=
        let c := { c with iter := c.iter + 1, old_norm := some norm }
        if c.iter ≥ c.max_iter then
          some (ConvergenceStatus.MaximumIterations, c, dy)
        else
          some (ConvergenceStatus.Continue, c, dy)
      match c.old_norm with
      | some old_norm =>
        let rate := norm / old_norm
        if rate > 1 then
          some (ConvergenceStatus.Diverged, c, dy)
        else if 1 - rate ≠ 0 ∧ rate / (1 - rate) * norm < c.tol then
          some (ConvergenceStatus.Converged, c, dy)
        else if 1 - rate = 0 ∨
            rate ^ (c.max_iter - c.iter) / (1 - rate) * norm > c.tol then
          some (ConvergenceStatus.Diverged, c, dy)
        else
          step
      | none => step

/-- Concrete `Convergence` value used by the claim witnesses: scale already
reset, one previous scaled norm of 1 recorded. -/
def conv_example : Convergence :=
  { rtol := 1, atol := [0], tol := 1 / 2, max_iter := 10, iter := 1,
    scale := some [1], old_norm := some 1 }

/-- Concrete `Convergence` value with a recorded `old_norm`, used to show that
`reset` clears it. -/
def conv_with_old_norm : Convergence :=
  { rtol := 1, atol := [1], tol := 1 / 2, max_iter := 10, iter := 3,
    scale := some [2], old_norm := some 5 }

/-- C1: in `check_new_iteration`, whenever a previous scaled norm `n_old` is
recorded (iteration k ≥ 1) and the new scaled norm gives `rate = n_k / n_old ≥ 1`,
the status is `Diverged`.  The hypothesis `f64_epsilon < n_old` is the
invariant maintained by the source: `old_norm` is only ever set to a norm
that exceeded `EPSILON`. -/
theorem check_new_iteration_diverged_of_rate_ge_one
    (vnorm : List ℚ → ℚ) (c : Convergence) (dy s : List ℚ) (n_old : ℚ)
    (hs : c.scale = some s) (hold : c.old_norm = some n_old)
    (hnold : f64_epsilon < n_old)
    (hrate : 1 ≤ vnorm (List.zipWith (· / ·) dy s) / n_old) :
    c.check_new_iteration vnorm dy
      = some (ConvergenceStatus.Diverged, c, List.zipWith (· / ·) dy s) := by
  have heps0 : (0 : ℚ) < f64_epsilon := by norm_num [f64_epsilon]
  have hnold0 : 0 < n_old := lt_trans heps0 hnold
  have hnormge : n_old ≤ vnorm (List.zipWith (· / ·) dy s) :=
    (one_le_div hnold0).mp hrate
  have h1 : ¬ vnorm (List.zipWith (· / ·) dy s) ≤ f64_epsilon :=
    not_le.mpr (lt_of_lt_of_le hnold hnormge)
  unfold Convergence.check_new_iteration
  rw [hs]
  dsimp only
  rw [if_neg h1, hold]
  dsimp only
  rcases lt_or_eq_of_le hrate with hr | hr
  · rw [if_pos hr]
  · have hrone : vnorm (List.zipWith (· / ·) dy s) / n_old = 1 := hr.symm
    rw [if_neg (by rw [hrone]; exact lt_irrefl 1)]
    rw [if_neg (by rw [hrone]; simp)]
    rw [if_pos (Or.inl (by rw [hrone]; ring))]

/-- Witness for C1 at a concrete input: `conv_example` with `dy = [2]` and the
sum norm gives rate 2 ≥ 1 and status `Diverged`. -/
theorem check_new_iteration_diverged_witness :
    f64_epsilon < 1 ∧
    1 ≤ (fun v : List ℚ => v.sum) (List.zipWith (· / ·) [2] [1]) / 1 ∧
    conv_example.check_new_iteration (fun v : List ℚ => v.sum) [2]
      = some (ConvergenceStatus.Diverged, conv_example,
          List.zipWith (· / ·) [2] [1]) := by
  refine ⟨by norm_num [f64_epsilon], by norm_num, ?_⟩
  exact check_new_iteration_diverged_of_rate_ge_one (fun v => v.sum)
    conv_example [2] [1] 1 rfl rfl (by norm_num [f64_epsilon]) (by norm_num)

/-- C3 counterexample: `reset` does not leave `old_norm` in place; on
`conv_with_old_norm` (whose `old_norm` is `some 5`) it changes `old_norm`. -/
theorem reset_old_norm_counterexample :
    conv_with_old_norm.old_norm = some 5 ∧
    (conv_with_old_norm.reset [1]).old_norm ≠ conv_with_old_norm.old_norm := by
  exact ⟨rfl, by simp [Convergence.reset, conv_with_old_norm]⟩

/-- C3 (amended): `reset(y)` sets `iter` to 0, recomputes
`scale = |y|·rtol + atol`, and clears `old_norm` to `None`, so the previous
`old_norm` is not reused across resets. -/
theorem reset_sets_iter_scale_clears_old_norm (c : Convergence) (y : List ℚ) :
    (c.reset y).iter = 0 ∧
    (c.reset y).scale
      = some (List.zipWith (fun a b => a + b) (y.map fun v => |v| * c.rtol) c.atol) ∧
    (c.reset y).old_norm = none :=
  ⟨rfl, rfl, rfl⟩

/-- C4: for every `rtol > 0`, `Convergence::new` sets the working tolerance to
`max(min_tol, min(max_tol, 0.5·rtol^0.5))` with `min_tol = 10·ε/rtol` and
`max_tol = 0.03` (here `sqrt_rtol` is the externally computed `rtol.pow(0.5)`). -/
theorem new_tol_is_clamped (rtol sqrt_rtol : ℚ) (atol : List ℚ) (max_iter : ℕ)
    (hrtol : 0 < rtol) :
    (Convergence.new rtol atol sqrt_rtol max_iter).tol
      = max (10 * f64_epsilon / rtol) (min (3 / 100) (1 / 2 * sqrt_rtol)) := by
  simp only [Convergence.new]
  rw [max_def, min_def]
  split_ifs <;> linarith

/-- Witness for C4 at `rtol = 1`, `sqrt_rtol = 1`: the tolerance is
`max(10·ε, min(0.03, 0.5)) = 0.03`. -/
theorem new_tol_is_clamped_witness :
    (0 : ℚ) < 1 ∧
    (Convergence.new 1 [] 1 5).tol
      = max (10 * f64_epsilon / 1) (min (3 / 100) (1 / 2 * 1)) :=
  ⟨by norm_num, new_tol_is_clamped 1 1 [] 5 (by norm_num)⟩

/-- C7: calling `check_new_iteration` when `scale` is `None` panics (modelled
as `none`); after any `reset` the scale is set, and the call always returns a
status (the panic branch is unreachable). -/
theorem check_new_iteration_panic_before_reset (vnorm : List ℚ → ℚ)
    (c : Convergence) (y dy dy₂ : List ℚ) :
    Convergence.check_new_iteration vnorm { c with scale := none } dy = none ∧
    (Convergence.check_new_iteration vnorm (c.reset y) dy₂).isSome = true := by
  constructor
  · rfl
  · unfold Convergence.check_new_iteration Convergence.reset
    dsimp only
    split
    · rfl
    · split <;> rfl

/-! ## Matrix backends (`src/matrix/dense_nalgebra_serial.rs`,
`src/matrix/sundials.rs`)

Both backends are dense under the hood; a matrix is embedded as its
dimensions plus a list of rows. -/

/-- A dense matrix of rationals: dimensions plus a row list. -/
structure Mat where
  nrows : ℕ
  ncols : ℕ
  rows : List (List ℚ)
deriving DecidableEq, Repr

/-- `Matrix::zeros(nrows, ncols)` (both backends): the all-zero matrix. -/
def Mat.zeros (nrows ncols : ℕ) : Mat :=
  ⟨nrows, ncols, List.replicate nrows (List.replicate ncols 0)⟩

/-- In-range element write; `List.set` is the identity outside range. -/
def Mat.set (m : Mat) (i j : ℕ) (v : ℚ) : Mat :=
  { m with rows := m.rows.set i ((m.rows.getD i []).set j v) }

/-- `m[(i, j)] = v` through the backend's `IndexMut`: nalgebra's indexing and
`SundialsMatrix::index_mut` (source lines 117-127) both bounds-check and
panic when `i ≥ nrows` or `j ≥ ncols`; `none` models that panic. -/
def Mat.write (m : Mat) (i j : ℕ) (v : ℚ) : Option Mat :=
  if i < m.nrows ∧ j < m.ncols then some (m.set i j v) else none

/-- The triplet loop of `Matrix::try_from_triplets` for `DMatrix` (source
lines 109-119): each triplet is written with `m[(i, j)] = v`, with no bounds
check of its own, so an out-of-range triplet panics inside nalgebra. -/
def dmatrix_from_triplets_loop : Option Mat → List (ℕ × ℕ × ℚ) → Option Mat
  | none, _ => none
  | some m, [] => some m
  | some m, (i, j, v) :: rest => dmatrix_from_triplets_loop (m.write i j v) rest

/-- `Matrix::try_from_triplets` for the nalgebra dense backend.  The outer
`Option` models the process abort (panic) on an out-of-range index; the
`Except` is the returned `Result`, which this implementation always builds
with `Ok`. -/
def dmatrix_try_from_triplets (nrows ncols : ℕ) (triplets : List (ℕ × ℕ × ℚ)) :
    Option (Except String Mat) :=
  (dmatrix_from_triplets_loop (some (Mat.zeros nrows ncols)) triplets).map Except.ok

/-- The triplet loop of `Matrix::try_from_triplets` for `SundialsMatrix`
(source lines 289-302): `i >= nrows || j >= ncols` returns the
`Index out of bounds` error before the write, so the indexing panic cannot
fire and the write is modelled by the total `Mat.set`. -/
def sundials_from_triplets_loop (nrows ncols : ℕ) (m : Mat) :
    List (ℕ × ℕ × ℚ) → Except String Mat
  | [] => Except.ok m
  | (i, j, v) :: rest =>
    if nrows ≤ i ∨ ncols ≤ j then Except.error "Index out of bounds"
    else sundials_from_triplets_loop nrows ncols (m.set i j v) rest

/-- `Matrix::try_from_triplets` for the sundials backend. -/
def sundials_try_from_triplets (nrows ncols : ℕ) (triplets : List (ℕ × ℕ × ℚ)) :
    Except String Mat :=
  sundials_from_triplets_loop nrows ncols (Mat.zeros nrows ncols) triplets

/-- C2: at the input `try_from_triplets(2, 2, [(2, 0, 1.0)])` the sundials
backend returns the IndexOutOfBounds error as the claim states, but the
nalgebra dense backend performs no bounds check of its own and aborts in
nalgebra's indexing (modelled as `none`) instead of returning the error. -/
theorem try_from_triplets_out_of_range_backends :
    sundials_try_from_triplets 2 2 [(2, 0, 1)] = Except.error "Index out of bounds" ∧
    dmatrix_try_from_triplets 2 2 [(2, 0, 1)] = none := by
  constructor
  · rfl
  · rfl

/-- Dot product of two rational vectors (inner product of matching prefixes). -/
def dot (a b : List ℚ) : ℚ := (List.zipWith (· * ·) a b).sum

/-- The matrix-vector product `A·x` over the row representation (the product
computed by the external libraries inside `gemv` / `SUNMatMatvec`). -/
def Mat.matvec (m : Mat) (x : List ℚ) : List ℚ := m.rows.map (fun r => dot r x)

/-- `Matrix::gemv` for the nalgebra dense backend (source lines 130-132):
delegates to nalgebra's `y.gemv(alpha, self, x, beta)`.  Modelled from the
spec (§4.1) and nalgebra's documented semantics `y ← α·A·x + β·y`, the
library itself being external. -/
def dmatrix_gemv (m : Mat) (alpha : ℚ) (x : List ℚ) (beta : ℚ)
    (y : List ℚ) : List ℚ :=
  List.zipWith (fun ax yi => alpha * ax + beta * yi) (m.matvec x) y

/-- `Matrix::gemv` for the sundials backend (source lines 304-312):
`tmp = A·x` via `SUNMatMatvec`, then `y.axpy(alpha, tmp, beta)`. -/
def sundials_gemv (m : Mat) (alpha : ℚ) (x : List ℚ) (beta : ℚ)
    (y : List ℚ) : List ℚ :=
  vaxpy alpha (m.matvec x) beta y

/-- The concrete matrix A = [[1, 2], [3, 4]] of spec scenario 4. -/
def gemv_example_matrix : Mat := ⟨2, 2, [[1, 2], [3, 4]]⟩

/-- C9: for A = [[1, 2], [3, 4]], x = (1, 1), α = 2, β = −1, y_init = (1, 1)
the nalgebra dense backend and the sundials backend produce the identical
output y = (5, 13). -/
theorem gemv_backends_agree :
    dmatrix_gemv gemv_example_matrix 2 [1, 1] (-1) [1, 1] = [5, 13] ∧
    sundials_gemv gemv_example_matrix 2 [1, 1] (-1) [1, 1] = [5, 13] := by
  constructor
  · norm_num [dmatrix_gemv, gemv_example_matrix, Mat.matvec, dot]
  · norm_num [sundials_gemv, gemv_example_matrix, Mat.matvec, dot, vaxpy]

/-! ## Operator framework (`src/op/mod.rs`, `src/op/closure.rs`) -/

/-- `OpStatistics` (src/op/mod.rs lines 44-49): the three evaluation
counters. -/
structure OpStatistics where
  number_of_calls : ℕ
  number_of_jac_muls : ℕ
  number_of_matrix_evals : ℕ
deriving DecidableEq, Repr

/-- `OpStatistics::new` / `default`: all counters zero. -/
def OpStatistics.new : OpStatistics := ⟨0, 0, 0⟩

/-- `OpStatistics::increment_call`. -/
def OpStatistics.increment_call (s : OpStatistics) : OpStatistics :=
  { s with number_of_calls := s.number_of_calls + 1 }

/-- `OpStatistics::increment_jac_mul`. -/
def OpStatistics.increment_jac_mul (s : OpStatistics) : OpStatistics :=
  { s with number_of_jac_muls := s.number_of_jac_muls + 1 }

/-- `OpStatistics::increment_matrix`. -/
def OpStatistics.increment_matrix (s : OpStatistics) : OpStatistics :=
  { s with number_of_matrix_evals := s.number_of_matrix_evals + 1 }

/-- The `Closure` operator (src/op/closure.rs): a residual closure
`F(x, p, t) → y`, a Jacobian-action closure `J(x, p, t, v) → y`, the
dimensions, the shared parameter vector and the interior-mutable statistics
cell (embedded by returning the updated structure).  As built by
`Closure::new` the coloring is `None`, so `jacobian_inplace` takes the
`_default_jacobian_inplace` path (the coloring path lives in `jacobian.rs`,
outside the embedded sources). -/
structure Closure where
  func : List ℚ → List ℚ → ℚ → List ℚ
  jacobian_action : List ℚ → List ℚ → ℚ → List ℚ → List ℚ
  nstates : ℕ
  nout : ℕ
  nparams : ℕ
  p : List ℚ
  statistics : OpStatistics

/-- `NonLinearOp::call_inplace` for `Closure` (src/op/closure.rs lines 91-94):
increment the call counter, then evaluate the residual closure. -/
def Closure.call_inplace (c : Closure) (x : List ℚ) (t : ℚ) :
    Closure × List ℚ :=
  ({ c with statistics := c.statistics.increment_call }, c.func x c.p t)

/-- `NonLinearOp::jac_mul_inplace` for `Closure` (lines 95-98): increment the
jac-mul counter, then evaluate the Jacobian-action closure. -/
def Closure.jac_mul_inplace (c : Closure) (x : List ℚ) (t : ℚ) (v : List ℚ) :
    Closure × List ℚ :=
  ({ c with statistics := c.statistics.increment_jac_mul },
    c.jacobian_action x c.p t v)

/-- The `j`-th standard basis vector of length `n` (the probe vector `v` of
`_default_jacobian_inplace`). -/
def basisVec (n j : ℕ) : List ℚ :=
  (List.range n).map (fun i => if i = j then 1 else 0)

/-- The column loop of `NonLinearOp::_default_jacobian_inplace`
(src/op/mod.rs lines 105-114): for each `j` probe with the basis vector,
apply `jac_mul_inplace` and record the result as column `j`.  The columns
accumulate in order; the statistics thread through the closure. -/
def Closure.default_jacobian_loop (c : Closure) (x : List ℚ) (t : ℚ) :
    List ℕ → List (List ℚ) → Closure × List (List ℚ)
  | [], cols => (c, cols)
  | j :: rest, cols =>
    let r := c.jac_mul_inplace x t (basisVec c.nstates j)
    r.1.default_jacobian_loop x t rest (cols ++ [r.2])

/-- `NonLinearOp::jacobian_inplace` for `Closure` (src/op/closure.rs lines
99-106): increment the matrix-evaluation counter, then (coloring being
`None`) materialize the Jacobian column by column via
`_default_jacobian_inplace`. -/
def Closure.jacobian_inplace (c : Closure) (x : List ℚ) (t : ℚ) :
    Closure × List (List ℚ) :=
  let c := { c with statistics := c.statistics.increment_matrix }
  c.default_jacobian_loop x t (List.range c.nstates) []

/-- `N` successive residual calls: fold `call_inplace` over a list of
`(x, t)` inputs, keeping the operator. -/
def Closure.iterate_calls (c : Closure) (inputs : List (List ℚ × ℚ)) : Closure :=
  inputs.foldl (fun acc xt => (acc.call_inplace xt.1 xt.2).1) c

/-- The statistics of the closure after the default-Jacobian column loop:
only the jac-mul counter moves, by one per probed column. -/
theorem default_jacobian_loop_statistics (x : List ℚ) (t : ℚ) :
    ∀ (js : List ℕ) (c : Closure) (cols : List (List ℚ)),
    (c.default_jacobian_loop x t js cols).1.statistics
      = { c.statistics with
          number_of_jac_muls := c.statistics.number_of_jac_muls + js.length } := by
  intro js
  induction js with
  | nil => intro c cols; simp [Closure.default_jacobian_loop]
  | cons j rest ih =>
    intro c cols
    simp only [Closure.default_jacobian_loop, Closure.jac_mul_inplace, ih,
      OpStatistics.increment_jac_mul, List.length_cons, OpStatistics.mk.injEq]
    exact ⟨trivial, by omega, trivial⟩

/-- The statistics after `N` successive residual calls: the call counter
advances by exactly the number of calls, the other counters stay put. -/
theorem iterate_calls_statistics :
    ∀ (inputs : List (List ℚ × ℚ)) (c : Closure),
    (c.iterate_calls inputs).statistics
      = { c.statistics with
          number_of_calls := c.statistics.number_of_calls + inputs.length } := by
  intro inputs
  induction inputs with
  | nil => intro c; simp [Closure.iterate_calls]
  | cons xt rest ih =>
    intro c
    have hstep : c.iterate_calls (xt :: rest)
        = ((c.call_inplace xt.1 xt.2).1).iterate_calls rest := rfl
    rw [hstep, ih]
    simp only [Closure.call_inplace, OpStatistics.increment_call,
      List.length_cons, OpStatistics.mk.injEq]
    exact ⟨by omega, trivial, trivial⟩

/-- C8: on a `Closure` operator, `call_inplace` increments `number_of_calls`
by exactly one, `jac_mul_inplace` increments `number_of_jac_muls` by exactly
one, and `jacobian_inplace` increments `number_of_matrix_evals` by exactly
one, each leaving or growing the other counters (no operation decreases a
counter); after `N` residual calls `number_of_calls` is at least `N`. -/
theorem closure_statistics_counters (c : Closure) (x v : List ℚ) (t : ℚ)
    (inputs : List (List ℚ × ℚ)) :
    ((c.call_inplace x t).1.statistics.number_of_calls
        = c.statistics.number_of_calls + 1 ∧
      (c.call_inplace x t).1.statistics.number_of_jac_muls
        = c.statistics.number_of_jac_muls ∧
      (c.call_inplace x t).1.statistics.number_of_matrix_evals
        = c.statistics.number_of_matrix_evals) ∧
    ((c.jac_mul_inplace x t v).1.statistics.number_of_jac_muls
        = c.statistics.number_of_jac_muls + 1 ∧
      (c.jac_mul_inplace x t v).1.statistics.number_of_calls
        = c.statistics.number_of_calls ∧
      (c.jac_mul_inplace x t v).1.statistics.number_of_matrix_evals
        = c.statistics.number_of_matrix_evals) ∧
    ((c.jacobian_inplace x t).1.statistics.number_of_matrix_evals
        = c.statistics.number_of_matrix_evals + 1 ∧
      (c.jacobian_inplace x t).1.statistics.number_of_calls
        = c.statistics.number_of_calls ∧
      c.statistics.number_of_jac_muls
        ≤ (c.jacobian_inplace x t).1.statistics.number_of_jac_muls) ∧
    ((c.iterate_calls inputs).statistics.number_of_calls
        = c.statistics.number_of_calls + inputs.length ∧
      inputs.length ≤ (c.iterate_calls inputs).statistics.number_of_calls) := by
  refine ⟨⟨rfl, rfl, rfl⟩, ⟨rfl, rfl, rfl⟩, ?_, ?_⟩
  · have h := default_jacobian_loop_statistics x t (List.range c.nstates)
      { c with statistics := c.statistics.increment_matrix } []
    unfold Closure.jacobian_inplace
    rw [h]
    exact ⟨rfl, rfl, by simp [OpStatistics.increment_matrix]⟩
  · rw [iterate_calls_statistics]
    exact ⟨rfl, by dsimp only; omega⟩

/-! ## ODE problem and state (`src/ode_solver/method.rs`,
`src/ode_solver/problem.rs`) -/

/-- Modelled from the spec: the `OdeEquations` trait of the problem is not
among the embedded sources; the spec (§3, §4.5) says it exposes the
initial-state function `init(t)` and the mass-matrix operator, of which
`new_consistent` uses only the diagonal of its materialized matrix at `t`. -/
structure OdeEquations where
  init : ℚ → List ℚ
  mass_diagonal : ℚ → List ℚ

/-- `OdeSolverProblem` (src/ode_solver/problem.rs lines 6-12): equations,
tolerances, initial time and step. -/
structure OdeSolverProblem where
  eqn : OdeEquations
  rtol : ℚ
  atol : List ℚ
  t0 : ℚ
  h0 : ℚ

/-- `OdeSolverState` (src/ode_solver/method.rs lines 79-83). -/
structure OdeSolverState where
  y : List ℚ
  t : ℚ
  h : ℚ
deriving DecidableEq, Repr

/-- Modelled from the spec: `FilterCallable` (src/op/filter.rs, not among the
embedded sources) wraps the rhs operator restricted to the algebraic index
subset; `new_consistent` relies only on it storing the index set passed at
construction and returning it from `indices()` (spec §4.5 steps 4 and 7). -/
structure FilterCallable where
  indices : List ℕ

/-- The reduced `SolverProblem` built by `new_consistent`: the filtered
operator, the filtered absolute tolerances and the relative tolerance. -/
structure ReducedProblem where
  f : FilterCallable
  atol : List ℚ
  rtol : ℚ

/-- The caller-supplied nonlinear solver of `new_consistent`, modelled
extensionally as the combined action of `set_problem` followed by
`solve_in_place` on the filtered iterate: it either fails or returns the
converged filtered vector. -/
def RootSolver : Type :=
  ReducedProblem → List ℚ → ℚ → Except String (List ℚ)

/-- `OdeSolverState::new_consistent` (src/ode_solver/method.rs lines 99-126):
extract the mass diagonal at `t0`, filter the zero-diagonal (algebraic)
indices, return `init(t0)` immediately if there are none, otherwise solve the
reduced problem on the filtered iterate and scatter the converged values back. -/
def OdeSolverState.new_consistent (prob : OdeSolverProblem)
    (root_solver : RootSolver) : Except String OdeSolverState :=
  let t := prob.t0
  let h := prob.h0
  let mass_diagonal := prob.eqn.mass_diagonal t
  let indices := filter_indices mass_diagonal (fun x => x == 0)
  let y := prob.eqn.init t
  if indices.length = 0 then Except.ok ⟨y, t, h⟩
  else
    let y_filtered := filterVec y indices
    let atol := filterVec prob.atol indices
    let f : FilterCallable := ⟨indices⟩
    let init_problem : ReducedProblem := ⟨f, atol, prob.rtol⟩
    match root_solver init_problem y_filtered t with
    | Except.error e => Except.error e
    | Except.ok y_solved =>
      Except.ok ⟨scatter_from y y_solved init_problem.f.indices, t, h⟩

/-- A predicate false on every element filters to the empty index set. -/
theorem filter_indices_eq_nil (v : List ℚ) (p : ℚ → Bool)
    (h : ∀ d ∈ v, ¬ p d) : filter_indices v p = [] := by
  unfold filter_indices
  refine List.filter_eq_nil_iff.mpr ?_
  intro i hi
  have hlt : i < v.length := List.mem_range.mp hi
  rw [List.getD_eq_getElem v 0 hlt]
  exact h _ (List.getElem_mem hlt)

/-- Membership in `filter_indices` forces the predicate at that position. -/
theorem of_mem_filter_indices (v : List ℚ) (p : ℚ → Bool) (i : ℕ)
    (h : i ∈ filter_indices v p) : i < v.length ∧ p (v.getD i 0) := by
  unfold filter_indices at h
  exact ⟨List.mem_range.mp (List.mem_filter.mp h).1, (List.mem_filter.mp h).2⟩

/-- `scatter_from` leaves every position outside the index set unchanged. -/
theorem scatter_from_get?_of_not_mem :
    ∀ (indices : List ℕ) (vals y : List ℚ) (i : ℕ), i ∉ indices →
    (scatter_from y vals indices).get? i = y.get? i := by
  intro indices
  induction indices with
  | nil => intro vals y i _; rfl
  | cons a rest ih =>
    intro vals y i hi
    cases vals with
    | nil => rfl
    | cons v vs =>
      have hstep : scatter_from y (v :: vs) (a :: rest)
          = scatter_from (y.set a v) vs rest := rfl
      rw [hstep, ih vs _ i (fun h => hi (List.mem_cons_of_mem a h))]
      exact List.get?_set_ne v y (fun h => hi (h ▸ List.mem_cons_self a rest))

/-- C5: when the mass-matrix diagonal at `t0` has no zero entry,
`new_consistent` returns `Ok` with `y = init(t0)`, `t = t0`, `h = h0`, for
every root solver whatsoever — in particular the always-failing one — so the
supplied nonlinear solver is never invoked. -/
theorem new_consistent_no_algebraic (prob : OdeSolverProblem)
    (hnz : ∀ d ∈ prob.eqn.mass_diagonal prob.t0, d ≠ 0) :
    ∀ root_solver : RootSolver,
      OdeSolverState.new_consistent prob root_solver
        = Except.ok ⟨prob.eqn.init prob.t0, prob.t0, prob.h0⟩ := by
  intro root_solver
  have hnil : filter_indices (prob.eqn.mass_diagonal prob.t0)
      (fun x => x == 0) = [] := by
    refine filter_indices_eq_nil _ _ ?_
    intro d hd
    simpa using hnz d hd
  simp [OdeSolverState.new_consistent, hnil]

/-- Concrete problem with an everywhere-nonzero mass diagonal, for the C5
witness. -/
def ode_example_prob : OdeSolverProblem :=
  { eqn := { init := fun _ => [1, 2], mass_diagonal := fun _ => [1, 1] },
    rtol := 1 / 1000000, atol := [1 / 1000000, 1 / 1000000], t0 := 0, h0 := 1 }

/-- Witness for C5: on `ode_example_prob` (mass diagonal `[1, 1]`) the state
is `init(t0)` even under the always-failing root solver. -/
theorem new_consistent_no_algebraic_witness :
    (∀ d ∈ ode_example_prob.eqn.mass_diagonal ode_example_prob.t0, d ≠ 0) ∧
    OdeSolverState.new_consistent ode_example_prob
        (fun _ _ _ => Except.error "solver invoked")
      = Except.ok ⟨ode_example_prob.eqn.init ode_example_prob.t0,
          ode_example_prob.t0, ode_example_prob.h0⟩ := by
  have h : ∀ d ∈ ode_example_prob.eqn.mass_diagonal ode_example_prob.t0,
      d ≠ 0 := by
    intro d hd
    have hd1 : d = 1 := by simpa [ode_example_prob] using hd
    rw [hd1]
    norm_num
  exact ⟨h, new_consistent_no_algebraic ode_example_prob h _⟩

/-- C6: every component at which the mass diagonal at `t0` is nonzero (a
differential component) is returned by `new_consistent` unchanged from
`init(t0)`: the scatter of the converged reduced solution writes only the
zero-diagonal (algebraic) positions. -/
theorem new_consistent_preserves_differential (prob : OdeSolverProblem)
    (root_solver : RootSolver) (st : OdeSolverState) (i : ℕ) (d : ℚ)
    (hd : (prob.eqn.mass_diagonal prob.t0).get? i = some d) (hdnz : d ≠ 0)
    (hok : OdeSolverState.new_consistent prob root_solver = Except.ok st) :
    st.y.get? i = (prob.eqn.init prob.t0).get? i := by
  have hnotmem : i ∉ filter_indices (prob.eqn.mass_diagonal prob.t0)
      (fun x => x == 0) := by
    intro hmem
    obtain ⟨hlt, hp⟩ := of_mem_filter_indices _ _ _ hmem
    have hgd : (prob.eqn.mass_diagonal prob.t0).getD i 0 = d := by
      rw [List.getD_eq_getD_get?, hd]
      rfl
    rw [hgd] at hp
    exact hdnz (by simpa using hp)
  simp only [OdeSolverState.new_consistent] at hok
  split at hok
  · injection hok with h
    rw [← h]
  · split at hok
    · simp at hok
    · injection hok with h
      rw [← h]
      exact scatter_from_get?_of_not_mem _ _ _ _ hnotmem

/-- The DAE problem of spec scenario 3: mass diagonal `diag(1, 0)` with
`init = (0, 0)` at `t0 = 0`; for the C6 witness. -/
def dae_example_prob : OdeSolverProblem :=
  { eqn := { init := fun _ => [0, 0], mass_diagonal := fun _ => [1, 0] },
    rtol := 1 / 1000000, atol := [1 / 1000000, 1 / 1000000], t0 := 0, h0 := 1 }

/-- A concrete root solver returning the converged algebraic value `[3]`. -/
def dae_example_solver : RootSolver := fun _ _ _ => Except.ok [3]

/-- Witness for C6: on `dae_example_prob` the solver writes only algebraic
position 1 (`y = [0, 3]`), and the differential component 0 keeps its
`init(t0)` value. -/
theorem new_consistent_preserves_differential_witness :
    ((dae_example_prob.eqn.mass_diagonal dae_example_prob.t0).get? 0 = some 1 ∧
      (1 : ℚ) ≠ 0 ∧
      OdeSolverState.new_consistent dae_example_prob dae_example_solver
        = Except.ok ⟨[0, 3], 0, 1⟩) ∧
    (OdeSolverState.mk [0, 3] 0 1).y.get? 0
      = (dae_example_prob.eqn.init dae_example_prob.t0).get? 0 := by
  have h1 : (dae_example_prob.eqn.mass_diagonal dae_example_prob.t0).get? 0
      = some 1 := rfl
  have h2 : (1 : ℚ) ≠ 0 := by norm_num
  have h3 : OdeSolverState.new_consistent dae_example_prob dae_example_solver
      = Except.ok ⟨[0, 3], 0, 1⟩ := by rfl
  exact ⟨⟨h1, h2, h3⟩, new_consistent_preserves_differential dae_example_prob
    dae_example_solver ⟨[0, 3], 0, 1⟩ 0 1 h1 h2 h3⟩

/-- `OdeSolverSolutionPoint` (src/ode_solver/problem.rs lines 53-56). -/
structure OdeSolverSolutionPoint where
  state : List ℚ
  t : ℚ
deriving DecidableEq, Repr

/-- Mirrors `Iterator::position`: the index of the first element satisfying
the predicate, if any. -/
def listPosition {α : Type} (pred : α → Bool) : List α → Option ℕ
  | [] => none
  | a :: rest => if pred a then some 0 else (listPosition pred rest).map (· + 1)

/-- Mirrors `Vec::insert(index, element)`; every call site here has
`index ≤ len`. -/
def listInsert {α : Type} (a : α) : ℕ → List α → List α
  | 0, l => a :: l
  | _ + 1, [] => [a]
  | n + 1, x :: xs => x :: listInsert a n xs

/-- `OdeSolverSolution::push(state, t)` (src/ode_solver/problem.rs lines
62-74): find the position of the first point whose time exceeds `t`
(defaulting to the end) and insert the new point there. -/
def solution_push (points : List OdeSolverSolutionPoint) (state : List ℚ)
    (t : ℚ) : List OdeSolverSolutionPoint :=
  let index := (listPosition (fun x => decide (x.t > t)) points).getD points.length
  listInsert ⟨state, t⟩ index points

/-- Recursive characterization of `solution_push`: insert at the head when
the head's time already exceeds `t`, otherwise keep the head and recurse. -/
theorem solution_push_cons (a : OdeSolverSolutionPoint)
    (rest : List OdeSolverSolutionPoint) (state : List ℚ) (t : ℚ) :
    solution_push (a :: rest) state t
      = if t < a.t then ⟨state, t⟩ :: a :: rest
        else a :: solution_push rest state t := by
  have hcons : listPosition (fun x => decide (x.t > t)) (a :: rest)
      = if decide (a.t > t) then some 0
        else (listPosition (fun x => decide (x.t > t)) rest).map (· + 1) := rfl
  unfold solution_push
  rw [hcons]
  by_cases h : t < a.t
  · simp [h, listInsert]
  · cases hpos : listPosition (fun x => decide (x.t > t)) rest <;>
      simp [h, hpos, listInsert]

/-- C10: `push` preserves ascending-by-time sortedness, and the new point
lands after every existing point with time ≤ t (equal times included) and
before every point with strictly greater time. -/
theorem solution_push_keeps_sorted (points : List OdeSolverSolutionPoint)
    (state : List ℚ) (t : ℚ)
    (hs : points.Pairwise (fun p q => p.t ≤ q.t)) :
    (solution_push points state t).Pairwise (fun p q => p.t ≤ q.t) ∧
    ∃ l₁ l₂, points = l₁ ++ l₂ ∧
      solution_push points state t
        = l₁ ++ OdeSolverSolutionPoint.mk state t :: l₂ ∧
      (∀ p ∈ l₁, p.t ≤ t) ∧ (∀ p ∈ l₂, t < p.t) := by
  induction points with
  | nil =>
    refine ⟨?_, [], [], rfl, rfl, ?_, ?_⟩ <;>
      simp [solution_push, listPosition, listInsert]
  | cons a rest ih =>
    rw [List.pairwise_cons] at hs
    obtain ⟨ha, hrest⟩ := hs
    rw [solution_push_cons]
    by_cases h : t < a.t
    · rw [if_pos h]
      constructor
      · rw [List.pairwise_cons]
        refine ⟨?_, List.pairwise_cons.mpr ⟨ha, hrest⟩⟩
        intro q hq
        rcases List.mem_cons.mp hq with h1 | h1
        · rw [h1]
          exact le_of_lt h
        · exact le_of_lt (lt_of_lt_of_le h (ha q h1))
      · refine ⟨[], a :: rest, rfl, rfl, by simp, ?_⟩
        intro p hp
        rcases List.mem_cons.mp hp with h1 | h1
        · rw [h1]; exact h
        · exact lt_of_lt_of_le h (ha p h1)
    · rw [if_neg h]
      obtain ⟨ihs, l₁, l₂, hsplit, hpush, hl₁, hl₂⟩ := ih hrest
      constructor
      · rw [List.pairwise_cons]
        refine ⟨?_, by rw [hpush] at ihs; rw [hpush]; exact ihs⟩
        intro q hq
        rw [hpush] at hq
        rcases List.mem_append.mp hq with h1 | h1
        · exact ha q (by rw [hsplit]; exact List.mem_append_left l₂ h1)
        · rcases List.mem_cons.mp h1 with h2 | h2
          · rw [h2]
            exact not_lt.mp h
          · exact ha q (by rw [hsplit]; exact List.mem_append_right l₁ h2)
      · refine ⟨a :: l₁, l₂, by rw [hsplit]; rfl, by rw [hpush]; rfl, ?_, hl₂⟩
        intro p hp
        rcases List.mem_cons.mp hp with h1 | h1
        · rw [h1]; exact not_lt.mp h
        · exact hl₁ p h1

/-- A sorted concrete point list with a run of equal times, for the C10
witness. -/
def push_example_points : List OdeSolverSolutionPoint :=
  [⟨[], 1⟩, ⟨[], 2⟩, ⟨[], 2⟩, ⟨[], 3⟩]

/-- Witness for C10 at the concrete sorted list with equal times 2, pushing
`t = 2`. -/
theorem solution_push_keeps_sorted_witness :
    push_example_points.Pairwise (fun p q => p.t ≤ q.t) ∧
    ((solution_push push_example_points [] 2).Pairwise (fun p q => p.t ≤ q.t) ∧
      ∃ l₁ l₂, push_example_points = l₁ ++ l₂ ∧
        solution_push push_example_points [] 2
          = l₁ ++ OdeSolverSolutionPoint.mk [] 2 :: l₂ ∧
        (∀ p ∈ l₁, p.t ≤ 2) ∧ (∀ p ∈ l₂, 2 < p.t)) := by
  have hs : push_example_points.Pairwise (fun p q => p.t ≤ q.t) := by
    unfold push_example_points
    norm_num
  exact ⟨hs, solution_push_keeps_sorted push_example_points [] 2 hs⟩

end Diffsol
